import Mathlib

/-!
Verification of the nimb chat bridge (src/nimb.py): a shallow embedding of
the line parser, the IRC client's monitor step, the outbound send path, the
label-based fan-out router, the reconnect backoff, and the Matrix
transaction counter, together with theorems settling the specification's
claims.

Strings are modelled as `List Char`.  The Python `str` helpers used by the
source (`split`, `strip`, `upper`, `lower`, `splitlines`, `translate`,
`replace`) are embedded as executable functions over `List Char`,
restricted to the ASCII fragment the wire protocol uses.
-/

/-- ASCII whitespace, as recognised by Python `str.split()` and `strip()`. -/
def pyIsSpace (c : Char) : Bool :=
  c == ' ' || c == '\t' || c == '\n' || c == '\r' || c == '\x0b' || c == '\x0c'

/-- Drop leading whitespace, the first phase of Python whitespace `split`. -/
def dropWs (l : List Char) : List Char :=
  l.dropWhile pyIsSpace

/-- Python `s.split(maxsplit=1)` (whitespace split, at most one split):
returns `[]` for all-whitespace input, `[tok]` when nothing follows the
first token but whitespace, and `[tok, rest]` otherwise, where `rest`
starts at the first non-whitespace character after the token and keeps its
trailing whitespace. -/
def splitWsOnce (s : List Char) : List (List Char) :=
  let s1 := dropWs s
  if s1 = [] then []
  else
    let tok := s1.takeWhile (fun c => !pyIsSpace c)
    let rest1 := dropWs (s1.dropWhile (fun c => !pyIsSpace c))
    if rest1 = [] then [tok] else [tok, rest1]

/-- Python `s.split(":", 1)`: split at the first colon, if any. -/
def splitColonOnce (s : List Char) : List (List Char) :=
  match s.dropWhile (fun c => c != ':') with
  | [] => [s.takeWhile (fun c => c != ':')]
  | _ :: rest => [s.takeWhile (fun c => c != ':'), rest]

/-- Python `s.strip()`: remove leading and trailing whitespace. -/
def pyStrip (s : List Char) : List Char :=
  (((s.dropWhile pyIsSpace).reverse).dropWhile pyIsSpace).reverse

/-- Python `s.split()` with no arguments: whitespace split, empty fields
discarded (the classic word split). -/
def pySplitWs : List Char → List (List Char)
  | [] => []
  | c :: cs =>
    if pyIsSpace c then pySplitWs cs
    else (c :: cs.takeWhile (fun x => !pyIsSpace x))
        :: pySplitWs (cs.dropWhile (fun x => !pyIsSpace x))
termination_by s => s.length
decreasing_by
  · simp
  · simp only [List.length_cons]
    exact Nat.lt_succ_of_le (List.Sublist.length_le (List.dropWhile_sublist _))

/-- Python `s.upper()`, ASCII model. -/
def pyUpper (s : List Char) : List Char :=
  s.map Char.toUpper

/-- Python `s.lower()`, ASCII model. -/
def pyLower (s : List Char) : List Char :=
  s.map Char.toLower

/-- `_parse_line` (src/nimb.py lines 26-55).  Returns
`(sender, command, middle, trailing)`; Python exceptions (IndexError on an
empty line, ValueError when the `prefix, rest` unpacking fails, IndexError
when no command token exists) are modelled as `Except.error`. -/
def parseLine (line : List Char) :
    Except Unit (Option (List Char) × List Char × Option (List Char) × Option (List Char)) :=
  match line with
  | [] => Except.error ()
  | c :: cs =>
    let pr : Except Unit (Option (List Char) × List Char) :=
      if c = ':' then
        match splitWsOnce cs with
        | [p, r] => Except.ok (some p, r)
        | _ => Except.error ()
      else Except.ok (none, line)
    match pr with
    | Except.error _ => Except.error ()
    | Except.ok (prefixOpt, rest) =>
      let sender : Option (List Char) :=
        match prefixOpt with
        | some p => if p = [] then none else some (p.takeWhile (fun ch => ch != '!'))
        | none => none
      match splitWsOnce rest with
      | [] => Except.error ()
      | [cmd] => Except.ok (sender, pyUpper cmd, none, none)
      | cmd :: paramsStr :: _ =>
        match splitColonOnce paramsStr with
        | [m] => Except.ok (sender, pyUpper cmd, some (pyStrip m), none)
        | m :: tr :: _ => Except.ok (sender, pyUpper cmd, some (pyStrip m), some (pyStrip tr))
        | [] => Except.ok (sender, pyUpper cmd, none, none)

/-- Line-break characters recognised by Python `str.splitlines()`
(ASCII fragment: LF, CR, vertical tab, form feed). -/
def isLineBreak (c : Char) : Bool :=
  c == '\n' || c == '\r' || c == '\x0b' || c == '\x0c'

/-- Python `s.splitlines()`: split at line breaks, treating `"\r\n"` as a
single break; no trailing empty line is produced. -/
def pySplitlines (l : List Char) : List (List Char) :=
  if l = [] then []
  else
    let line := l.takeWhile (fun c => !isLineBreak c)
    match h2 : l.dropWhile (fun c => !isLineBreak c) with
    | [] => [line]
    | '\r' :: '\n' :: rest2 => line :: pySplitlines rest2
    | _ :: rest2 => line :: pySplitlines rest2
termination_by l.length
decreasing_by
  all_goals
    have h1 := List.Sublist.length_le
      (List.dropWhile_sublist (l := l) (fun c => !isLineBreak c))
    rw [h2] at h1
    simp at h1
    omega

/-- The chunk list `[line[i : i + size] for i in range(0, len(line), size)]`
from `IRCClient._send_message` (src/nimb.py line 240), for a positive
`size` (in the source, `size` is positive whenever the sanitized prefix is
shorter than the 400-byte budget, which is the regime the spec describes). -/
def chunksOf (size : Nat) (l : List Char) : List (List Char) :=
  if size = 0 then []
  else if l = [] then []
  else l.take size :: chunksOf size (l.drop size)
termination_by l.length
decreasing_by
  rename_i h1 h2
  simp only [List.length_drop]
  have h3 : l.length ≠ 0 := fun h => h2 (List.eq_nil_of_length_eq_zero h)
  omega

/-- `prefix.translate(str.maketrans("\0\r\n", "   "))` from
`IRCClient._send_message` (src/nimb.py line 235). -/
def sanitizePrefix (p : List Char) : List Char :=
  p.map (fun c => if c = '\x00' || c = '\r' || c = '\n' then ' ' else c)

/-- `message.replace("\0", " ")` from `IRCClient._send_message`
(src/nimb.py line 236). -/
def sanitizeBody (m : List Char) : List Char :=
  m.map (fun c => if c = '\x00' then ' ' else c)

/-- One channel binding from the configuration: the `channel`, `infix`
(named `sep` here) and `label` fields, and the `to` destination-label list
(named `toLabels` here), as used by `IRCClient`; `infix` and `to` are Lean
keywords. -/
structure Binding where
  channel : List Char
  sep : List Char
  label : List Char
  toLabels : List (List Char)
deriving DecidableEq

/-- The wire line `f"PRIVMSG {recipient} :{prefix}{chunk}"` sent for one
chunk (src/nimb.py line 242). -/
def privmsgLine (recipient p chunk : List Char) : List Char :=
  "PRIVMSG ".toList ++ recipient ++ " :".toList ++ p ++ chunk

/-- The payload chunks produced for one `_send_message` call: sanitize,
split the body into lines, and cut each line into pieces of at most
`400 - len(prefix)` characters (src/nimb.py lines 234-242). -/
def bodyChunks (p m : List Char) : List (List Char) :=
  (pySplitlines (sanitizeBody m)).flatMap (chunksOf (400 - (sanitizePrefix p).length))

/-- `IRCClient._send_message` (src/nimb.py lines 234-242): the list of wire
messages sent, one per chunk, in order. -/
def sendMessage (recipient p m : List Char) : List (List Char) :=
  (bodyChunks p m).map (privmsgLine recipient (sanitizePrefix p))

/-- `IRCClient.forward_message` (src/nimb.py lines 244-248): all wire
messages sent for one forward call, over the bindings whose label occurs
in `toLabels`. -/
def ircForwardMessage (channels : List Binding) (toLabels : List (List Char))
    (p m : List Char) : List (List Char) :=
  (channels.filter (fun c => c.label ∈ toLabels)).flatMap
    (fun c => sendMessage c.channel p m)

/-- Python exceptions that can escape one iteration of the `_monitor` loop
(src/nimb.py lines 122-195): parse failures, `IndexError`, `KeyError` on
`_channel_nicks`, and the `ValueError` raised by `_find_channel_config`. -/
inductive StepErr
  | parseError
  | indexError
  | keyError
  | valueError
deriving DecidableEq

/-- One invocation of the routing callback: the arguments of
`self._callback(to_labels, sender_prefix, message)`. -/
structure CallbackCall where
  toLabels : List (List Char)
  pfx : List Char
  message : List Char
deriving DecidableEq

/-- The `IRCClient` state touched by `_monitor`: the configured bindings,
the `_channel_nicks` rosters (insertion-ordered, mirroring a Python dict
of sets), the recovery delay and the host name. -/
structure IRCState where
  channels : List Binding
  channelNicks : List (List Char × List (List Char))
  recoveryDelay : Nat
  host : List Char
deriving DecidableEq

/-- Python `set.add`: no duplicate is ever introduced. -/
def setAdd (s : List (List Char)) (x : List Char) : List (List Char) :=
  if x ∈ s then s else s ++ [x]

/-- Python `set.discard`. -/
def setDiscard (s : List (List Char)) (x : List Char) : List (List Char) :=
  s.filter (fun y => y ≠ x)

/-- Dict read `self._channel_nicks[k]`; `none` models a `KeyError`. -/
def lookupNicks (m : List (List Char × List (List Char))) (k : List Char) :
    Option (List (List Char)) :=
  (m.find? (fun q => q.1 = k)).map Prod.snd

/-- In-place mutation of the set stored under an existing key `k`. -/
def setNicks (m : List (List Char × List (List Char))) (k : List Char)
    (v : List (List Char)) : List (List Char × List (List Char)) :=
  m.map (fun q => if q.1 = k then (k, v) else q)

/-- `IRCClient._find_channel_config` (src/nimb.py lines 199-204): first
binding whose `channel` equals the lower-cased name; `none` models the
`ValueError` raised when there is no match. -/
def findChannelConfig (channels : List Binding) (name : List Char) : Option Binding :=
  channels.find? (fun c => c.channel = pyLower name)

/-- `IRCClient._find_channels_containing_nick` (src/nimb.py lines 206-207). -/
def findChannelsContainingNick (m : List (List Char × List (List Char)))
    (nick : List Char) : List (List Char) :=
  (m.filter (fun q => nick ∈ q.2)).map Prod.fst

/-- One pass of `nick[1:] if nick[0] == c else nick` (src/nimb.py lines
135-136); an empty nick raises `IndexError` at `nick[0]`. -/
def stripSigil (c : Char) (n : List Char) : Except StepErr (List Char) :=
  match n with
  | [] => Except.error StepErr.indexError
  | x :: rest => Except.ok (if x = c then rest else n)

/-- How a Python f-string renders an optional value: `None` when absent. -/
def optText (o : Option (List Char)) : List Char :=
  o.getD "None".toList

/-- The `f" [{trailing}]" if trailing is not None else ""` reason suffix
used by the PART and QUIT branches. -/
def reasonText (trailing : Option (List Char)) : List Char :=
  match trailing with
  | some t => " [".toList ++ t ++ "]".toList
  | none => []

/-- The per-channel body of the NICK branch's loop (src/nimb.py lines
178-182): look up the binding (may raise), move the old nick to the new
one in that roster, and record one notice callback. -/
def nickStep (newNick oldNick message : List Char)
    (acc : IRCState × List CallbackCall) (channelName : List Char) :
    Except StepErr (IRCState × List CallbackCall) :=
  match findChannelConfig acc.1.channels channelName with
  | none => Except.error StepErr.valueError
  | some ch =>
    match lookupNicks acc.1.channelNicks channelName with
    | none => Except.error StepErr.keyError
    | some s =>
      let m2 := setNicks acc.1.channelNicks channelName (setAdd (setDiscard s oldNick) newNick)
      Except.ok ({ acc.1 with channelNicks := m2 }, acc.2 ++ [⟨ch.toLabels, [], message⟩])

/-- The per-channel body of the QUIT branch's loop (src/nimb.py lines
191-194): look up the binding (may raise), drop the nick from that roster,
and record one notice callback. -/
def quitStep (oldNick message : List Char)
    (acc : IRCState × List CallbackCall) (channelName : List Char) :
    Except StepErr (IRCState × List CallbackCall) :=
  match findChannelConfig acc.1.channels channelName with
  | none => Except.error StepErr.valueError
  | some ch =>
    match lookupNicks acc.1.channelNicks channelName with
    | none => Except.error StepErr.keyError
    | some s =>
      let m2 := setNicks acc.1.channelNicks channelName (setDiscard s oldNick)
      Except.ok ({ acc.1 with channelNicks := m2 }, acc.2 ++ [⟨ch.toLabels, [], message⟩])

/-- The command dispatch of `IRCClient._monitor` (src/nimb.py lines
127-195) for one parsed line.  The result collects the successor state,
the routing-callback invocations and the raw lines written back to the
socket; `Except.error` models an exception escaping the iteration. -/
def dispatchCommand (st : IRCState) (sender : Option (List Char))
    (command : List Char) (middle trailing : Option (List Char)) :
    Except StepErr (IRCState × List CallbackCall × List (List Char)) :=
  if command = "PING".toList then
    Except.ok (st, [], ["PONG :".toList ++ optText trailing])
  else if command = "353".toList then
    match middle, trailing with
    | some mid, some tr =>
      match (pySplitWs mid).getLast? with
      | none => Except.error StepErr.indexError
      | some channelName =>
        match (pySplitWs tr).mapM (stripSigil '@') with
        | Except.error e => Except.error e
        | Except.ok nicks1 =>
          match nicks1.mapM (stripSigil '+') with
          | Except.error e => Except.error e
          | Except.ok nicks =>
            match nicks with
            | [] => Except.ok (st, [], [])
            | _ =>
              match lookupNicks st.channelNicks channelName with
              | none => Except.error StepErr.keyError
              | some s =>
                let m2 := setNicks st.channelNicks channelName (nicks.foldl setAdd s)
                Except.ok ({ st with channelNicks := m2 }, [], [])
    | _, _ => Except.ok (st, [], [])
  else if command = "PRIVMSG".toList then
    match middle, trailing with
    | some mid, some tr =>
      match findChannelConfig st.channels mid with
      | none => Except.error StepErr.valueError
      | some ch =>
        Except.ok ({ st with recoveryDelay := 1 },
          [⟨ch.toLabels, '<' :: (optText sender ++ ch.sep ++ "> ".toList), tr⟩], [])
    | _, _ => Except.ok (st, [], [])
  else if command = "JOIN".toList then
    match sender, middle with
    | some snd, some mid =>
      match findChannelConfig st.channels mid with
      | none => Except.error StepErr.valueError
      | some ch =>
        match lookupNicks st.channelNicks ch.channel with
        | none => Except.error StepErr.keyError
        | some s =>
          let m2 := setNicks st.channelNicks ch.channel (setAdd s snd)
          Except.ok
            ({ st with
                channelNicks := m2
                recoveryDelay := 1 },
             [⟨ch.toLabels, [],
               snd ++ ch.sep ++ " has joined ".toList ++ ch.channel
                 ++ " (".toList ++ st.host ++ ")".toList⟩], [])
    | _, _ => Except.ok (st, [], [])
  else if command = "PART".toList then
    match sender, middle with
    | some snd, some mid =>
      match findChannelConfig st.channels mid with
      | none => Except.error StepErr.valueError
      | some ch =>
        match lookupNicks st.channelNicks ch.channel with
        | none => Except.error StepErr.keyError
        | some s =>
          let m2 := setNicks st.channelNicks ch.channel (setDiscard s snd)
          Except.ok
            ({ st with
                channelNicks := m2
                recoveryDelay := 1 },
             [⟨ch.toLabels, [],
               snd ++ ch.sep ++ " has left ".toList ++ ch.channel
                 ++ " (".toList ++ st.host ++ ")".toList ++ reasonText trailing⟩], [])
    | _, _ => Except.ok (st, [], [])
  else if command = "NICK".toList then
    match sender, trailing with
    | some snd, some newNick =>
      match (findChannelsContainingNick st.channelNicks snd).foldlM
          (nickStep newNick snd
            (snd ++ " is now known as ".toList ++ newNick ++ " on ".toList ++ st.host))
          (st, []) with
      | Except.error e => Except.error e
      | Except.ok (st2, calls) => Except.ok ({ st2 with recoveryDelay := 1 }, calls, [])
    | _, _ => Except.ok (st, [], [])
  else if command = "QUIT".toList then
    match sender with
    | some snd =>
      match (findChannelsContainingNick st.channelNicks snd).foldlM
          (quitStep snd
            (snd ++ " has quit ".toList ++ st.host ++ reasonText trailing))
          (st, []) with
      | Except.error e => Except.error e
      | Except.ok (st2, calls) => Except.ok ({ st2 with recoveryDelay := 1 }, calls, [])
    | none => Except.ok (st, [], [])
  else
    Except.ok (st, [], [])

/-- One iteration of the `for line in self._recv()` loop of
`IRCClient._monitor` (src/nimb.py lines 122-195): parse the line, then
dispatch on the command. -/
def monitorStep (st : IRCState) (line : List Char) :
    Except StepErr (IRCState × List CallbackCall × List (List Char)) :=
  match parseLine line with
  | Except.error _ => Except.error StepErr.parseError
  | Except.ok (sender, command, middle, trailing) =>
    dispatchCommand st sender command middle trailing

/-- The routing callback built in `create_clients` (src/nimb.py lines
478-480): it iterates the fixed client list in construction order and each
client's `forward_message` filters its own bindings to those whose label
is in `to_labels` (src/nimb.py lines 246 and 463), making one send call
per matching binding.  Each client is abstracted to its binding list; the
result has one entry per forward call, tagged with the client's position. -/
def routerCalls (clients : List (List Binding)) (toLabels : List (List Char)) :
    List (Nat × Binding) :=
  clients.enum.flatMap
    (fun q => (q.2.filter (fun c => c.label ∈ toLabels)).map (fun b => (q.1, b)))

/-- Outcome of one event inside a client's recovery loop: a lifecycle
iteration failing with an exception, or a message being successfully
processed (which executes `self._recovery_delay = 1`). -/
inductive RunEv
  | fail
  | msg
deriving DecidableEq

/-- The backoff cap of `IRCClient.run` (src/nimb.py line 93). -/
def ircRecoveryCap : Nat := 3600

/-- The backoff cap of `MatrixClient.run` (src/nimb.py line 333). -/
def matrixRecoveryCap : Nat := 60

/-- How `_recovery_delay` evolves at one event: a failure runs
`self._recovery_delay = min(self._recovery_delay * 2, cap)` (src/nimb.py
lines 93 and 333), a processed message runs `self._recovery_delay = 1`
(src/nimb.py lines 146, 158, 171, 183, 195, 387, 395). -/
def stepDelay (cap d : Nat) : RunEv → Nat
  | RunEv.fail => min (d * 2) cap
  | RunEv.msg => 1

/-- The recovery delay after a sequence of events, starting from delay
`d`. -/
def delayAfter (cap d : Nat) (evs : List RunEv) : Nat :=
  evs.foldl (stepDelay cap) d

/-- The delays actually slept: `run` sleeps the current delay before
doubling it (src/nimb.py lines 92-93 and 332-333), so each failure sleeps
the pre-update value. -/
def sleepsOf (cap d : Nat) : List RunEv → List Nat
  | [] => []
  | RunEv.fail :: es => d :: sleepsOf cap (min (d * 2) cap) es
  | RunEv.msg :: es => sleepsOf cap 1 es

/-- `self._recovery_delay = 1` in both constructors (src/nimb.py lines 76
and 317). -/
def initRecoveryDelay : Nat := 1

/-- Whether the HTTP PUT issued for one Matrix send succeeds; the
transaction counter must not depend on it. -/
inductive SendOutcome
  | success
  | failure
deriving DecidableEq

/-- `self._txn = 0` in `MatrixClient.__init__` (src/nimb.py line 313). -/
def matrixInitTxn : Nat := 0

/-- One `MatrixClient._send` attempt (src/nimb.py lines 439-453): the URL
is built with the current `self._txn`, then `self._txn += 1` runs before
`http_request`, so the counter advances whether or not the request
succeeds.  Returns the transaction id used and the next counter value. -/
def matrixSendStep (txn : Nat) (o : SendOutcome) : Nat × Nat :=
  match o with
  | SendOutcome.success => (txn, txn + 1)
  | SendOutcome.failure => (txn, txn + 1)

/-- The transaction ids used by a sequence of send attempts. -/
def txnTrace (txn : Nat) : List SendOutcome → List Nat
  | [] => []
  | o :: os => (matrixSendStep txn o).1 :: txnTrace (matrixSendStep txn o).2 os

deriving instance DecidableEq for Except

/-! ## Helper lemmas -/

theorem delayAfter_mem (cap : Nat) (hcap : 1 ≤ cap) :
    ∀ (evs : List RunEv) (d : Nat), 1 ≤ d → d ≤ cap →
      1 ≤ delayAfter cap d evs ∧ delayAfter cap d evs ≤ cap := by
  intro evs
  induction evs with
  | nil => intro d h1 h2; exact ⟨h1, h2⟩
  | cons e es ih =>
    intro d h1 h2
    simp only [delayAfter, List.foldl_cons] at *
    cases e with
    | fail =>
      apply ih
      · exact le_min (by omega) hcap
      · exact min_le_right _ _
    | msg => exact ih 1 le_rfl hcap

theorem txnTrace_eq_range' :
    ∀ (os : List SendOutcome) (t : Nat), txnTrace t os = List.range' t os.length := by
  intro os
  induction os with
  | nil => intro t; rfl
  | cons o os ih =>
    intro t
    cases o <;> simp [txnTrace, matrixSendStep, ih, List.range'_succ]

theorem pySplitlines_nil : pySplitlines [] = [] := by
  rw [pySplitlines]
  simp

theorem pySplitlines_eq_nil (l : List Char) (h : pySplitlines l = []) : l = [] := by
  by_contra hne
  rw [pySplitlines] at h
  simp only [hne, if_false] at h
  split at h <;> simp_all

/-! ## C4: reconnect backoff -/

/-- C4: starting from the initial delay of 1 second, the recovery delay
always stays within `[1, cap]` for both adapter caps (3600 s for IRC,
60 s for Matrix); one failure doubles it capped; processing a message
resets it to 1 regardless of history; and five consecutive failures from a
fresh start sleep 1, 2, 4, 8, 16 seconds. -/
theorem recovery_delay_spec :
    (∀ evs : List RunEv,
        1 ≤ delayAfter ircRecoveryCap initRecoveryDelay evs ∧
        delayAfter ircRecoveryCap initRecoveryDelay evs ≤ ircRecoveryCap) ∧
    (∀ evs : List RunEv,
        1 ≤ delayAfter matrixRecoveryCap initRecoveryDelay evs ∧
        delayAfter matrixRecoveryCap initRecoveryDelay evs ≤ matrixRecoveryCap) ∧
    (∀ (cap d : Nat), delayAfter cap d (RunEv.fail :: []) = min (d * 2) cap) ∧
    (∀ (cap d : Nat) (evs : List RunEv), delayAfter cap d (evs ++ RunEv.msg :: []) = 1) ∧
    sleepsOf ircRecoveryCap initRecoveryDelay
        (RunEv.fail :: RunEv.fail :: RunEv.fail :: RunEv.fail :: RunEv.fail :: []) =
      1 :: 2 :: 4 :: 8 :: 16 :: [] := by
  refine ⟨?_, ?_, ?_, ?_, ?_⟩
  · intro evs
    exact delayAfter_mem ircRecoveryCap (by decide) evs initRecoveryDelay le_rfl (by decide)
  · intro evs
    exact delayAfter_mem matrixRecoveryCap (by decide) evs initRecoveryDelay le_rfl (by decide)
  · intro cap d
    rfl
  · intro cap d evs
    simp [delayAfter, List.foldl_append, stepDelay]
  · decide

theorem recovery_delay_spec_witness :
    (1 ≤ delayAfter ircRecoveryCap initRecoveryDelay (RunEv.fail :: RunEv.fail :: []) ∧
      delayAfter ircRecoveryCap initRecoveryDelay (RunEv.fail :: RunEv.fail :: []) ≤
        ircRecoveryCap) ∧
    delayAfter matrixRecoveryCap 16 ((RunEv.fail :: []) ++ RunEv.msg :: []) = 1 :=
  ⟨recovery_delay_spec.1 (RunEv.fail :: RunEv.fail :: []),
   recovery_delay_spec.2.2.2.1 matrixRecoveryCap 16 (RunEv.fail :: [])⟩

/-! ## C9: Matrix transaction identifiers -/

/-- C9: across any sequence of Matrix send attempts, the transaction
identifiers used are strictly increasing and never reused, and the
sequence of identifiers does not depend on which attempts succeed (the
counter is consumed by the attempt, since `self._txn += 1` precedes the
HTTP request). -/
theorem txn_monotonic_spec (os : List SendOutcome) :
    List.Pairwise (fun a b => a < b) (txnTrace matrixInitTxn os) ∧
    (txnTrace matrixInitTxn os).Nodup ∧
    ∀ os2 : List SendOutcome, os.length = os2.length →
      txnTrace matrixInitTxn os = txnTrace matrixInitTxn os2 := by
  refine ⟨?_, ?_, ?_⟩
  · rw [txnTrace_eq_range']
    exact List.pairwise_lt_range' _ _
  · rw [txnTrace_eq_range']
    exact List.nodup_range' _ _
  · intro os2 h
    rw [txnTrace_eq_range', txnTrace_eq_range', h]

theorem txn_monotonic_spec_witness :
    List.Pairwise (fun a b => a < b)
      (txnTrace matrixInitTxn (SendOutcome.failure :: SendOutcome.success :: [])) ∧
    txnTrace matrixInitTxn (SendOutcome.failure :: SendOutcome.success :: []) =
      txnTrace matrixInitTxn (SendOutcome.success :: SendOutcome.success :: []) :=
  ⟨(txn_monotonic_spec (SendOutcome.failure :: SendOutcome.success :: [])).1,
   (txn_monotonic_spec (SendOutcome.failure :: SendOutcome.success :: [])).2.2
     (SendOutcome.success :: SendOutcome.success :: []) rfl⟩

/-! ## C10: empty body is silently dropped -/

/-- C10: a forward call whose body splits into zero lines (the empty body)
causes no wire message at all: `_send_message` sends nothing and
`forward_message` sends nothing for any set of matching bindings. -/
theorem empty_body_drop_spec (channels : List Binding) (toLabels : List (List Char))
    (recipient p m : List Char) (h : pySplitlines m = []) :
    sendMessage recipient p m = [] ∧ ircForwardMessage channels toLabels p m = [] := by
  have hm : m = [] := pySplitlines_eq_nil m h
  subst hm
  have hsend : ∀ r : List Char, sendMessage r p [] = [] := by
    intro r
    simp [sendMessage, bodyChunks, sanitizeBody, pySplitlines_nil]
  refine ⟨hsend recipient, ?_⟩
  simp [ircForwardMessage, hsend]

unseal pySplitlines in
theorem empty_body_drop_spec_witness :
    sendMessage ("#chan".toList) ("<p> ".toList) [] = [] ∧
    ircForwardMessage ((⟨"#chan".toList, [], "x".toList, ("x".toList :: [])⟩ : Binding) :: [])
      ("x".toList :: []) ("<p> ".toList) [] = [] :=
  empty_body_drop_spec _ _ _ _ _ (by decide)

theorem chunksOf_mem_length (size : Nat) (l : List Char) :
    ∀ c ∈ chunksOf size l, c.length ≤ size := by
  induction l using chunksOf.induct size with
  | case1 x hs =>
    intro c hc
    rw [chunksOf] at hc
    simp [hs] at hc
  | case2 hs =>
    intro c hc
    rw [chunksOf] at hc
    simp at hc
  | case3 x hs hx ih =>
    intro c hc
    rw [chunksOf] at hc
    rw [if_neg hs, if_neg hx] at hc
    rcases List.mem_cons.mp hc with h | h
    · rw [h, List.length_take]
      exact min_le_left _ _
    · exact ih c h

theorem chunksOf_flatten (size : Nat) (l : List Char) (hs : size ≠ 0) :
    (chunksOf size l).flatten = l := by
  induction l using chunksOf.induct size with
  | case1 x h => exact absurd h hs
  | case2 h =>
    rw [chunksOf]
    simp
  | case3 x h hx ih =>
    rw [chunksOf]
    rw [if_neg h, if_neg hx]
    rw [List.flatten_cons, ih]
    exact List.take_append_drop size x

theorem chunksOf_subset (size : Nat) (l : List Char) :
    ∀ c ∈ chunksOf size l, ∀ x ∈ c, x ∈ l := by
  induction l using chunksOf.induct size with
  | case1 x hs =>
    intro c hc
    rw [chunksOf] at hc
    simp [hs] at hc
  | case2 hs =>
    intro c hc
    rw [chunksOf] at hc
    simp at hc
  | case3 x hs hx ih =>
    intro c hc y hy
    rw [chunksOf] at hc
    rw [if_neg hs, if_neg hx] at hc
    rcases List.mem_cons.mp hc with h | h
    · rw [h] at hy
      exact List.take_subset size x hy
    · exact List.drop_subset size x (ih c h y hy)

theorem pySplitlines_eq_of_drop_nil (l : List Char) (hne : ¬ l = [])
    (h : l.dropWhile (fun c => !isLineBreak c) = []) :
    pySplitlines l = (l.takeWhile (fun c => !isLineBreak c)) :: [] := by
  rw [pySplitlines]
  rw [if_neg hne]
  split
  · rfl
  · rename_i heq
    rw [h] at heq
    simp at heq
  · rename_i heq
    rw [h] at heq
    simp at heq

theorem pySplitlines_eq_of_drop_crlf (l : List Char) (hne : ¬ l = []) (rest2 : List Char)
    (h : l.dropWhile (fun c => !isLineBreak c) = '\r' :: '\n' :: rest2) :
    pySplitlines l = (l.takeWhile (fun c => !isLineBreak c)) :: pySplitlines rest2 := by
  rw [pySplitlines]
  rw [if_neg hne]
  split
  · rename_i heq
    rw [h] at heq
    simp at heq
  · rename_i r3 heq
    rw [h] at heq
    injection heq with h1 h2
    injection h2 with h3 h4
    rw [h4]
  · rename_i hd r3 hcond heq
    rw [h] at heq
    injection heq with h1 h2
    exact absurd h2.symm (fun hx => hcond rest2 h1.symm hx)

theorem pySplitlines_eq_of_drop_cons (l : List Char) (hne : ¬ l = [])
    (c2 : Char) (rest2 : List Char)
    (h : l.dropWhile (fun c => !isLineBreak c) = c2 :: rest2)
    (hno : ∀ r3 : List Char, c2 = '\r' → rest2 = '\n' :: r3 → False) :
    pySplitlines l = (l.takeWhile (fun c => !isLineBreak c)) :: pySplitlines rest2 := by
  rw [pySplitlines]
  rw [if_neg hne]
  split
  · rename_i heq
    rw [h] at heq
    simp at heq
  · rename_i r3 heq
    rw [h] at heq
    injection heq with h1 h2
    exact absurd h2 (fun hx => hno r3 h1 hx)
  · rename_i hd r3 hcond heq
    rw [h] at heq
    injection heq with h1 h2
    rw [h2]

theorem pySplitlines_single (l : List Char) (hne : l ≠ [])
    (h : ∀ c ∈ l, isLineBreak c = false) : pySplitlines l = l :: [] := by
  have hd : l.dropWhile (fun c => !isLineBreak c) = [] :=
    List.dropWhile_eq_nil_iff.mpr (fun x hx => by simp [h x hx])
  have ht : l.takeWhile (fun c => !isLineBreak c) = l :=
    List.takeWhile_eq_self_iff.mpr (fun x hx => by simp [h x hx])
  rw [pySplitlines_eq_of_drop_nil l hne hd, ht]

theorem pySplitlines_no_break (l : List Char) :
    ∀ li ∈ pySplitlines l, ∀ c ∈ li, isLineBreak c = false := by
  induction l using pySplitlines.induct with
  | case1 =>
    intro li hli
    rw [pySplitlines_nil] at hli
    simp at hli
  | case2 x hx hdrop =>
    intro li hli c hc
    rw [pySplitlines_eq_of_drop_nil x hx hdrop] at hli
    rcases List.mem_cons.mp hli with h | h
    · rw [h] at hc
      simpa using List.mem_takeWhile_imp hc
    · simp at h
  | case3 x hx rest2 hdrop ih =>
    intro li hli c hc
    rw [pySplitlines_eq_of_drop_crlf x hx rest2 hdrop] at hli
    rcases List.mem_cons.mp hli with h | h
    · rw [h] at hc
      simpa using List.mem_takeWhile_imp hc
    · exact ih li h c hc
  | case4 x hx hd rest2 hcond hdrop ih =>
    intro li hli c hc
    rw [pySplitlines_eq_of_drop_cons x hx hd rest2 hdrop hcond] at hli
    rcases List.mem_cons.mp hli with h | h
    · rw [h] at hc
      simpa using List.mem_takeWhile_imp hc
    · exact ih li h c hc

theorem pySplitlines_subset (l : List Char) :
    ∀ li ∈ pySplitlines l, ∀ c ∈ li, c ∈ l := by
  induction l using pySplitlines.induct with
  | case1 =>
    intro li hli
    rw [pySplitlines_nil] at hli
    simp at hli
  | case2 x hx hdrop =>
    intro li hli c hc
    rcases List.mem_cons.mp (by rw [← pySplitlines_eq_of_drop_nil x hx hdrop]; exact hli) with h | h
    · rw [h] at hc
      exact (List.takeWhile_sublist _).subset hc
    · simp at h
  | case3 x hx rest2 hdrop ih =>
    intro li hli c hc
    rw [pySplitlines_eq_of_drop_crlf x hx rest2 hdrop] at hli
    rcases List.mem_cons.mp hli with h | h
    · rw [h] at hc
      exact (List.takeWhile_sublist _).subset hc
    · have h1 : c ∈ x.dropWhile (fun ch => !isLineBreak ch) := by
        rw [hdrop]
        exact List.mem_cons_of_mem _ (List.mem_cons_of_mem _ (ih li h c hc))
      exact (List.dropWhile_sublist _).subset h1
  | case4 x hx hd rest2 hcond hdrop ih =>
    intro li hli c hc
    rw [pySplitlines_eq_of_drop_cons x hx hd rest2 hdrop hcond] at hli
    rcases List.mem_cons.mp hli with h | h
    · rw [h] at hc
      exact (List.takeWhile_sublist _).subset hc
    · have h1 : c ∈ x.dropWhile (fun ch => !isLineBreak ch) := by
        rw [hdrop]
        exact List.mem_cons_of_mem _ (ih li h c hc)
      exact (List.dropWhile_sublist _).subset h1

theorem sanitizeBody_id (m : List Char) (h : ∀ c ∈ m, c ≠ '\x00') : sanitizeBody m = m := by
  unfold sanitizeBody
  induction m with
  | nil => rfl
  | cons c cs ih =>
    simp only [List.map_cons]
    rw [if_neg (h c (List.mem_cons_self c cs))]
    rw [ih (fun x hx => h x (List.mem_cons_of_mem c hx))]

theorem sanitizeBody_no_null (m : List Char) : ∀ c ∈ sanitizeBody m, c ≠ '\x00' := by
  intro c hc
  rcases List.mem_map.mp hc with ⟨a, ha, hfa⟩
  by_cases hz : a = '\x00'
  · rw [← hfa, hz]
    decide
  · rw [← hfa, if_neg hz]
    exact hz

/-! ## C5: outbound chunking -/

/-- C5 counterexample: for the single-line 1000-byte body of null
characters and the 5-byte prefix "abcde", the sent chunks concatenate to
1000 spaces, not to the original body: `_send_message` replaces nulls with
spaces before chunking, so exact reconstruction fails. -/
theorem chunking_null_counterexample :
    ¬ (bodyChunks ("abcde".toList) (List.replicate 1000 '\x00')).flatten =
        List.replicate 1000 '\x00' := by
  intro hcontra
  have hbody : sanitizeBody (List.replicate 1000 '\x00') = List.replicate 1000 ' ' := by
    unfold sanitizeBody
    rw [List.map_replicate]
    rw [if_pos rfl]
  have hne : (List.replicate 1000 ' ' : List Char) ≠ [] := by
    intro h
    have h2 : (List.replicate 1000 ' ' : List Char).length = 1000 := List.length_replicate _ _
    rw [h] at h2
    exact absurd h2 (by decide)
  have hsplit : pySplitlines (List.replicate 1000 ' ') = (List.replicate 1000 ' ') :: [] := by
    apply pySplitlines_single _ hne
    intro c hc
    rw [List.eq_of_mem_replicate hc]
    rfl
  have hsize : 400 - (sanitizePrefix ("abcde".toList)).length = 395 := by decide
  have hflat : (bodyChunks ("abcde".toList) (List.replicate 1000 '\x00')).flatten =
      List.replicate 1000 ' ' := by
    unfold bodyChunks
    rw [hbody, hsplit, hsize]
    simp only [List.flatMap_cons, List.flatMap_nil, List.append_nil]
    exact chunksOf_flatten 395 _ (by decide)
  rw [hflat] at hcontra
  have hmem : (' ' : Char) ∈ List.replicate 1000 ' ' := List.mem_replicate.mpr ⟨by decide, rfl⟩
  rw [hcontra] at hmem
  exact absurd (List.eq_of_mem_replicate hmem) (by decide)

/-- C5 (amended): for a 5-character prefix and a single-line 1000-character
body containing no null characters, the outbound send splits the body into
chunks of at most 395 characters each, and concatenating the chunks in
order (without the prefix) reconstructs the body exactly.  (The claim as
frozen fails for single-line bodies containing null bytes, which
`_send_message` replaces with spaces before chunking; see the
counterexample.) -/
theorem chunking_reconstruct_amended (p b : List Char)
    (hp : p.length = 5) (hb : b.length = 1000)
    (hline : ∀ c ∈ b, isLineBreak c = false)
    (hnull : ∀ c ∈ b, c ≠ '\x00') :
    (∀ ch ∈ bodyChunks p b, ch.length ≤ 395) ∧ (bodyChunks p b).flatten = b := by
  have hpl : (sanitizePrefix p).length = p.length := by
    unfold sanitizePrefix
    simp
  have hsize : 400 - (sanitizePrefix p).length = 395 := by rw [hpl, hp]
  have hbody : sanitizeBody b = b := sanitizeBody_id b hnull
  have hbne : b ≠ [] := by
    intro h
    rw [h] at hb
    simp at hb
  have hsplit : pySplitlines (sanitizeBody b) = b :: [] := by
    rw [hbody]
    exact pySplitlines_single b hbne hline
  unfold bodyChunks
  rw [hsplit, hsize]
  simp only [List.flatMap_cons, List.flatMap_nil, List.append_nil]
  exact ⟨chunksOf_mem_length 395 b, chunksOf_flatten 395 b (by decide)⟩

theorem chunking_reconstruct_amended_witness :
    (∀ ch ∈ bodyChunks ("abcde".toList) (List.replicate 1000 'a'), ch.length ≤ 395) ∧
    (bodyChunks ("abcde".toList) (List.replicate 1000 'a')).flatten =
      List.replicate 1000 'a' :=
  chunking_reconstruct_amended ("abcde".toList) (List.replicate 1000 'a')
    (by decide) (List.length_replicate 1000 'a')
    (fun c hc => by rw [List.eq_of_mem_replicate hc]; rfl)
    (fun c hc => by rw [List.eq_of_mem_replicate hc]; decide)

/-! ## C6: outbound sanitization -/

unseal pySplitlines chunksOf in
/-- C6 counterexample: a carriage return in the body is not replaced by a
substitute character.  The body sanitization step (`replace("\0", " ")`)
leaves the CR in place, and the sent chunks drop it entirely because the
body is split at it, so the sanitized text's length is not preserved. -/
theorem sanitize_body_cr_counterexample :
    sanitizeBody ('a' :: '\r' :: 'b' :: []) = 'a' :: '\r' :: 'b' :: [] ∧
    (bodyChunks [] ('a' :: '\r' :: 'b' :: [])).flatten = 'a' :: 'b' :: [] ∧
    ¬ (bodyChunks [] ('a' :: '\r' :: 'b' :: [])).flatten.length =
        ('a' :: '\r' :: 'b' :: [] : List Char).length := by
  decide

/-- C6 (amended): every null, CR or LF in the prefix is replaced by a
space, preserving length and the position of every other character; in the
body only nulls are replaced by spaces the same way, while CR and LF act
as line separators instead: they are not substituted, and no sent chunk
contains a null or line-break character. -/
theorem sanitize_amended (p m : List Char) :
    ((sanitizePrefix p).length = p.length ∧
      (∀ i : Nat, (sanitizePrefix p)[i]? =
        (p[i]?).map (fun c => if c = '\x00' || c = '\r' || c = '\n' then ' ' else c)) ∧
      (∀ c ∈ sanitizePrefix p, c ≠ '\x00' ∧ c ≠ '\r' ∧ c ≠ '\n')) ∧
    ((sanitizeBody m).length = m.length ∧
      (∀ i : Nat, (sanitizeBody m)[i]? =
        (m[i]?).map (fun c => if c = '\x00' then ' ' else c)) ∧
      (∀ c ∈ sanitizeBody m, c ≠ '\x00')) ∧
    (∀ ch ∈ bodyChunks p m, ∀ c ∈ ch, c ≠ '\x00' ∧ isLineBreak c = false) := by
  refine ⟨⟨?_, ?_, ?_⟩, ⟨?_, ?_, ?_⟩, ?_⟩
  · unfold sanitizePrefix
    simp
  · intro i
    unfold sanitizePrefix
    simp [List.getElem?_map]
  · intro c hc
    rcases List.mem_map.mp hc with ⟨a, ha, hfa⟩
    rw [← hfa]
    by_cases hz : (a = '\x00' || a = '\r' || a = '\n') = true
    · rw [if_pos hz]
      refine ⟨by decide, by decide, by decide⟩
    · rw [if_neg hz]
      simp at hz
      exact ⟨hz.1.1, hz.1.2, hz.2⟩
  · unfold sanitizeBody
    simp
  · intro i
    unfold sanitizeBody
    simp [List.getElem?_map]
  · exact sanitizeBody_no_null m
  · intro ch hch c hc
    unfold bodyChunks at hch
    rcases List.mem_flatMap.mp hch with ⟨li, hli, hchli⟩
    have hcli : c ∈ li := chunksOf_subset _ li ch hchli c hc
    exact ⟨sanitizeBody_no_null m c (pySplitlines_subset _ li hli c hcli),
           pySplitlines_no_break _ li hli c hcli⟩

theorem sanitize_amended_witness :
    (sanitizePrefix ('\x00' :: '\r' :: '\n' :: 'x' :: [])).length = 4 ∧
    (∀ c ∈ sanitizePrefix ('\x00' :: '\r' :: '\n' :: 'x' :: []),
       c ≠ '\x00' ∧ c ≠ '\r' ∧ c ≠ '\n') ∧
    (∀ c ∈ sanitizeBody ('\x00' :: 'y' :: []), c ≠ '\x00') :=
  ⟨((sanitize_amended ('\x00' :: '\r' :: '\n' :: 'x' :: []) []).1.1).trans (by decide),
   (sanitize_amended ('\x00' :: '\r' :: '\n' :: 'x' :: []) []).1.2.2,
   (sanitize_amended [] ('\x00' :: 'y' :: [])).2.1.2.2⟩

/-! ## C3: router fan-out -/

/-- Proof helper: the router-call list with client numbering starting at
`k`; `routerCalls` is the `k = 0` case. -/
def routerCallsFrom (k : Nat) (L : List (List Char)) :
    List (List Binding) → List (Nat × Binding)
  | [] => []
  | bs :: rest =>
    ((bs.filter (fun c => c.label ∈ L)).map (fun b => (k, b)))
      ++ routerCallsFrom (k + 1) L rest

theorem enumFrom_flatMap_eq (L : List (List Char)) :
    ∀ (clients : List (List Binding)) (k : Nat),
      (List.enumFrom k clients).flatMap
        (fun q => (q.2.filter (fun c => c.label ∈ L)).map (fun b => (q.1, b))) =
      routerCallsFrom k L clients := by
  intro clients
  induction clients with
  | nil => intro k; rfl
  | cons c rest ih =>
    intro k
    rw [List.enumFrom_cons, List.flatMap_cons]
    simp only [routerCallsFrom]
    rw [ih (k + 1)]

theorem routerCalls_eq_from (clients : List (List Binding)) (L : List (List Char)) :
    routerCalls clients L = routerCallsFrom 0 L clients := by
  unfold routerCalls
  rw [List.enum_eq_enumFrom]
  exact enumFrom_flatMap_eq L clients 0

/-- Occurrence count of a binding in a binding list (filter-based, used to
state "exactly one forward call per binding"). -/
def countBind (b : Binding) (l : List Binding) : Nat :=
  (l.filter (fun y => y = b)).length

/-- Occurrence count of one (client position, binding) forward call. -/
def countCall (x : Nat × Binding) (l : List (Nat × Binding)) : Nat :=
  (l.filter (fun y => y = x)).length

theorem countBind_cons (b c : Binding) (l : List Binding) :
    countBind b (c :: l) = (if c = b then 1 else 0) + countBind b l := by
  simp only [countBind, List.filter_cons]
  by_cases h : c = b
  · rw [if_pos (by simpa using h), if_pos h]
    simp [Nat.add_comm]
  · rw [if_neg (by simpa using h), if_neg h]
    simp

theorem countCall_cons (x y : Nat × Binding) (l : List (Nat × Binding)) :
    countCall x (y :: l) = (if y = x then 1 else 0) + countCall x l := by
  simp only [countCall, List.filter_cons]
  by_cases h : y = x
  · rw [if_pos (by simpa using h), if_pos h]
    simp [Nat.add_comm]
  · rw [if_neg (by simpa using h), if_neg h]
    simp

theorem countCall_append (x : Nat × Binding) (l1 l2 : List (Nat × Binding)) :
    countCall x (l1 ++ l2) = countCall x l1 + countCall x l2 := by
  simp [countCall, List.filter_append]

theorem countCall_map (k : Nat) (b : Binding) (l : List Binding) :
    countCall (k, b) (l.map (fun y => (k, y))) = countBind b l := by
  induction l with
  | nil => rfl
  | cons c rest ih =>
    simp only [List.map_cons]
    rw [countCall_cons, ih, countBind_cons]
    by_cases h : c = b
    · rw [if_pos (by rw [h]), if_pos h]
    · rw [if_neg (fun hc => h (congrArg Prod.snd hc)), if_neg h]

theorem countBind_filter (L : List (List Char)) (b : Binding) (bs : List Binding) :
    countBind b (bs.filter (fun c => c.label ∈ L)) =
      if b.label ∈ L then countBind b bs else 0 := by
  induction bs with
  | nil => simp [countBind]
  | cons c rest ih =>
    rw [List.filter_cons]
    by_cases hc : (c.label ∈ L)
    · rw [if_pos (by simpa using hc), countBind_cons, ih, countBind_cons]
      by_cases hb : b.label ∈ L
      · rw [if_pos hb, if_pos hb]
      · rw [if_neg hb, if_neg hb]
        have hcb : ¬ c = b := fun h => hb (h ▸ hc)
        rw [if_neg hcb]
    · rw [if_neg (by simpa using hc), ih, countBind_cons]
      by_cases hb : b.label ∈ L
      · rw [if_pos hb, if_pos hb]
        have hcb : ¬ c = b := fun h => hc (by rw [h]; exact hb)
        rw [if_neg hcb]
        simp
      · rw [if_neg hb, if_neg hb]

theorem routerCallsFrom_count_lt (L : List (List Char)) (b : Binding) :
    ∀ (clients : List (List Binding)) (k i : Nat), i < k →
      countCall (i, b) (routerCallsFrom k L clients) = 0 := by
  intro clients
  induction clients with
  | nil => intro k i h; rfl
  | cons c rest ih =>
    intro k i h
    simp only [routerCallsFrom]
    rw [countCall_append]
    have h1 : countCall (i, b) ((c.filter (fun x => x.label ∈ L)).map (fun b2 => (k, b2))) = 0 := by
      unfold countCall
      rw [List.filter_eq_nil_iff.mpr ?_]
      · rfl
      · intro a ha
        rcases List.mem_map.mp ha with ⟨y, hy, hfy⟩
        have h2 : a.1 = k := by rw [← hfy]
        simp only [decide_eq_true_eq]
        intro hax
        rw [hax] at h2
        omega
    rw [h1, ih (k + 1) i (by omega)]

theorem routerCallsFrom_count (L : List (List Char)) (b : Binding) :
    ∀ (clients : List (List Binding)) (k j : Nat) (bs : List Binding),
      clients[j]? = some bs →
      countCall (k + j, b) (routerCallsFrom k L clients) =
        if b.label ∈ L then countBind b bs else 0 := by
  intro clients
  induction clients with
  | nil => intro k j bs h; simp at h
  | cons c rest ih =>
    intro k j bs h
    simp only [routerCallsFrom]
    rw [countCall_append]
    cases j with
    | zero =>
      rw [List.getElem?_cons_zero] at h
      injection h with h
      rw [← h]
      rw [Nat.add_zero]
      rw [countCall_map k b (c.filter (fun x => x.label ∈ L))]
      rw [routerCallsFrom_count_lt L b rest (k + 1) k (by omega)]
      rw [countBind_filter]
      simp
    | succ j2 =>
      rw [List.getElem?_cons_succ] at h
      have h1 : countCall (k + (j2 + 1), b)
          ((c.filter (fun x => x.label ∈ L)).map (fun b2 => (k, b2))) = 0 := by
        unfold countCall
        rw [List.filter_eq_nil_iff.mpr ?_]
        · rfl
        · intro a ha
          rcases List.mem_map.mp ha with ⟨y, hy, hfy⟩
          have h2 : a.1 = k := by rw [← hfy]
          simp only [decide_eq_true_eq]
          intro hax
          rw [hax] at h2
          omega
      rw [h1]
      have h3 := ih (k + 1) j2 bs h
      rw [show k + 1 + j2 = k + (j2 + 1) from by omega] at h3
      rw [h3]
      simp

theorem routerCalls_no_match (clients : List (List Binding)) (L : List (List Char))
    (h : ∀ bs ∈ clients, ∀ b ∈ bs, b.label ∉ L) : routerCalls clients L = [] := by
  unfold routerCalls
  rw [List.flatMap_eq_nil_iff]
  intro q hq
  rw [List.enum_eq_enumFrom] at hq
  rcases q with ⟨i, bs⟩
  rcases List.mem_enumFrom hq with ⟨-, hlt, heq⟩
  have hbs : bs ∈ clients := by
    rw [heq]
    exact List.getElem_mem _
  rw [List.map_eq_nil_iff, List.filter_eq_nil_iff]
  intro a ha
  simpa using h bs hbs a ha

/-- Binding A of the spec's router example: label "x", destinations {"y"}. -/
def bindA : Binding := ⟨"#a".toList, " A".toList, "x".toList, ("y".toList :: [])⟩

/-- Binding B of the spec's router example: label "y". -/
def bindB : Binding := ⟨"#b".toList, " B".toList, "y".toList, ("x".toList :: [])⟩

/-- Binding C of the spec's router example: label "z". -/
def bindC : Binding := ⟨"#c".toList, " C".toList, "z".toList, ("x".toList :: [])⟩

/-- C3: for every routed message with destination-label set `L`, every
binding occurrence whose label is in `L` receives exactly one forward call
(counted across all adapters by client position), a message matching no
binding produces zero forward calls (and no error, as `routerCalls` is
total), and the spec's three-binding example with labels x, y, z and
destination set {"y"} delivers to B only. -/
theorem router_exact_delivery :
    (∀ (clients : List (List Binding)) (L : List (List Char)) (i : Nat)
        (bs : List Binding) (b : Binding), clients[i]? = some bs →
        countCall (i, b) (routerCalls clients L) =
          if b.label ∈ L then countBind b bs else 0) ∧
    (∀ (clients : List (List Binding)) (L : List (List Char)),
        (∀ bs ∈ clients, ∀ b ∈ bs, b.label ∉ L) → routerCalls clients L = []) ∧
    routerCalls ((bindA :: []) :: (bindB :: []) :: (bindC :: []) :: [])
        ("y".toList :: []) = (1, bindB) :: [] := by
  refine ⟨?_, routerCalls_no_match, ?_⟩
  · intro clients L i bs b h
    rw [routerCalls_eq_from]
    have h2 := routerCallsFrom_count L b clients 0 i bs h
    simpa using h2
  · decide

theorem router_exact_delivery_witness :
    countCall (0, bindB) (routerCalls ((bindA :: bindB :: []) :: []) ("y".toList :: [])) = 1 := by
  have h := router_exact_delivery.1 ((bindA :: bindB :: []) :: []) ("y".toList :: []) 0
    (bindA :: bindB :: []) bindB (by decide)
  rw [h]
  decide

/-! ## C2: line parser -/

theorem takeWhile_append_all {p : Char → Bool} (xs ys : List Char)
    (h : ∀ c ∈ xs, p c = true) :
    (xs ++ ys).takeWhile p = xs ++ ys.takeWhile p := by
  induction xs with
  | nil => rfl
  | cons a t ih =>
    rw [List.cons_append, List.takeWhile_cons_of_pos (h a (List.mem_cons_self a t))]
    rw [ih (fun c hc => h c (List.mem_cons_of_mem a hc))]
    rfl

theorem dropWhile_append_all {p : Char → Bool} (xs ys : List Char)
    (h : ∀ c ∈ xs, p c = true) :
    (xs ++ ys).dropWhile p = ys.dropWhile p := by
  induction xs with
  | nil => rfl
  | cons a t ih =>
    rw [List.cons_append, List.dropWhile_cons_of_pos (h a (List.mem_cons_self a t))]
    exact ih (fun c hc => h c (List.mem_cons_of_mem a hc))

theorem dropWhile_idem {p : Char → Bool} (l : List Char) :
    (l.dropWhile p).dropWhile p = l.dropWhile p := by
  induction l with
  | nil => rfl
  | cons a t ih =>
    by_cases h : p a
    · rw [List.dropWhile_cons_of_pos h]
      exact ih
    · rw [List.dropWhile_cons_of_neg h, List.dropWhile_cons_of_neg h]

theorem dropWs_cons_of_nonspace (a : Char) (l : List Char) (h : pyIsSpace a = false) :
    dropWs (a :: l) = a :: l :=
  List.dropWhile_cons_of_neg (by simp [h])

theorem splitWsOnce_shape (tok rest : List Char) (htok : tok ≠ [])
    (htoks : ∀ c ∈ tok, pyIsSpace c = false)
    (hrest : dropWs rest ≠ []) :
    splitWsOnce (tok ++ ' ' :: rest) = tok :: dropWs rest :: [] := by
  cases tok with
  | nil => exact absurd rfl htok
  | cons a t =>
    unfold splitWsOnce
    rw [List.cons_append]
    rw [dropWs_cons_of_nonspace a _ (htoks a (List.mem_cons_self a t))]
    rw [if_neg (by simp)]
    have ht : ∀ c ∈ t, (!pyIsSpace c) = true := by
      intro c hc
      simp [htoks c (List.mem_cons_of_mem a hc)]
    have h1 : (a :: (t ++ ' ' :: rest)).takeWhile (fun c => !pyIsSpace c) = a :: t := by
      rw [List.takeWhile_cons_of_pos (by simp [htoks a (List.mem_cons_self a t)])]
      rw [takeWhile_append_all t (' ' :: rest) ht]
      rw [List.takeWhile_cons_of_neg (by decide)]
      rw [List.append_nil]
    have h2 : (a :: (t ++ ' ' :: rest)).dropWhile (fun c => !pyIsSpace c) = ' ' :: rest := by
      rw [List.dropWhile_cons_of_pos (by simp [htoks a (List.mem_cons_self a t)])]
      rw [dropWhile_append_all t (' ' :: rest) ht]
      rw [List.dropWhile_cons_of_neg (by decide)]
    rw [h1, h2]
    rw [show dropWs (' ' :: rest) = dropWs rest from List.dropWhile_cons_of_pos (by decide)]
    rw [if_neg hrest]

theorem splitColonOnce_split (before after : List Char)
    (h : ∀ c ∈ before, (c != ':') = true) :
    splitColonOnce (before ++ ':' :: after) = before :: after :: [] := by
  unfold splitColonOnce
  rw [dropWhile_append_all before (':' :: after) h]
  rw [List.dropWhile_cons_of_neg (by decide)]
  rw [takeWhile_append_all before (':' :: after) h]
  rw [List.takeWhile_cons_of_neg (by decide)]
  rw [List.append_nil]

theorem pyStrip_dropWs (y : List Char) : pyStrip (dropWs y) = pyStrip y := by
  unfold pyStrip dropWs
  rw [dropWhile_idem]

theorem pyStrip_append_space (y : List Char) : pyStrip (y ++ ' ' :: []) = pyStrip y := by
  unfold pyStrip
  rw [List.dropWhile_append]
  split
  · rename_i hemp
    rw [List.isEmpty_iff] at hemp
    rw [hemp]
    rfl
  · rw [List.reverse_append]
    simp only [List.reverse_cons, List.reverse_nil, List.nil_append, List.singleton_append]
    rw [List.dropWhile_cons_of_pos (by decide)]

theorem splitColonOnce_no_colon (s : List Char) (h : ∀ c ∈ s, (c != ':') = true) :
    splitColonOnce s = s :: [] := by
  unfold splitColonOnce
  rw [List.dropWhile_eq_nil_iff.mpr h]
  rw [List.takeWhile_eq_self_iff.mpr h]

theorem dropWs_append_colon (mid trail : List Char) :
    dropWs (mid ++ ' ' :: ':' :: trail) = dropWs (mid ++ ' ' :: []) ++ ':' :: trail := by
  have h := @List.dropWhile_append _ pyIsSpace (mid ++ ' ' :: []) (':' :: trail)
  rw [show (mid ++ ' ' :: []) ++ ':' :: trail = mid ++ ' ' :: ':' :: trail from by simp] at h
  unfold dropWs
  rw [h]
  split
  · rename_i hemp
    rw [List.isEmpty_iff] at hemp
    rw [hemp, List.dropWhile_cons_of_neg (by decide)]
    rfl
  · rfl

/-- The line shape `:<sender>!<user> <CMD> <mid> :<trail>` of the claim. -/
def ircLineFull (sender user cmd mid trail : List Char) : List Char :=
  ':' :: ((sender ++ '!' :: user) ++ ' ' :: (cmd ++ ' ' :: (mid ++ ' ' :: ':' :: trail)))

/-- The line shape `:<sender>!<user> <CMD> <mid>` with no trailing segment. -/
def ircLineNoTrail (sender user cmd mid : List Char) : List Char :=
  ':' :: ((sender ++ '!' :: user) ++ ' ' :: (cmd ++ ' ' :: mid))

/-- C2: for every line `:<sender>!<user> <CMD> <mid> :<trail>` (sender and
user whitespace-free, sender `!`-free, command a nonempty
whitespace-free token, middle colon-free), the parser returns the sender,
the command uppercased, the middle trimmed and the trailing trimmed; for
every parseable line with no leading `:`, the returned sender is absent;
and for every line of the shape with no trailing segment (middle not all
whitespace), the returned trailing parameter is absent. -/
theorem parse_line_spec :
    (∀ sender user cmd mid trail : List Char,
        (∀ c ∈ sender, pyIsSpace c = false) → '!' ∉ sender →
        (∀ c ∈ user, pyIsSpace c = false) →
        cmd ≠ [] → (∀ c ∈ cmd, pyIsSpace c = false) →
        ':' ∉ mid →
        parseLine (ircLineFull sender user cmd mid trail) =
          Except.ok (some sender, pyUpper cmd, some (pyStrip mid), some (pyStrip trail))) ∧
    (∀ (line : List Char)
        (r : Option (List Char) × List Char × Option (List Char) × Option (List Char)),
        line ≠ [] → line.head? ≠ some ':' →
        parseLine line = Except.ok r → r.1 = none) ∧
    (∀ sender user cmd mid : List Char,
        (∀ c ∈ sender, pyIsSpace c = false) → '!' ∉ sender →
        (∀ c ∈ user, pyIsSpace c = false) →
        cmd ≠ [] → (∀ c ∈ cmd, pyIsSpace c = false) →
        ':' ∉ mid → dropWs mid ≠ [] →
        parseLine (ircLineNoTrail sender user cmd mid) =
          Except.ok (some sender, pyUpper cmd, some (pyStrip mid), none)) := by
  have hprefixTok : ∀ sender user : List Char,
      (∀ c ∈ sender, pyIsSpace c = false) → (∀ c ∈ user, pyIsSpace c = false) →
      ∀ c ∈ sender ++ '!' :: user, pyIsSpace c = false := by
    intro sender user hs hu c hcmem
    rcases List.mem_append.mp hcmem with h | h
    · exact hs c h
    · rcases List.mem_cons.mp h with h | h
      · rw [h]; rfl
      · exact hu c h
  have hsenderTW : ∀ sender user : List Char, '!' ∉ sender →
      (sender ++ '!' :: user).takeWhile (fun ch => ch != '!') = sender := by
    intro sender user hsb
    rw [takeWhile_append_all sender ('!' :: user) (fun c hc => by
      have h : c ≠ '!' := fun h => hsb (h ▸ hc)
      simpa using h)]
    rw [List.takeWhile_cons_of_neg (by decide)]
    rw [List.append_nil]
  refine ⟨?_, ?_, ?_⟩
  · intro sender user cmd mid trail hs hsb hu hc hcs hm
    have hrest_eq : dropWs (cmd ++ ' ' :: (mid ++ ' ' :: ':' :: trail)) =
        cmd ++ ' ' :: (mid ++ ' ' :: ':' :: trail) := by
      cases cmd with
      | nil => exact absurd rfl hc
      | cons c0 t0 =>
        rw [List.cons_append]
        exact dropWs_cons_of_nonspace c0 _ (hcs c0 (List.mem_cons_self c0 t0))
    have h1 : splitWsOnce ((sender ++ '!' :: user) ++ ' ' ::
          (cmd ++ ' ' :: (mid ++ ' ' :: ':' :: trail))) =
        (sender ++ '!' :: user) :: (cmd ++ ' ' :: (mid ++ ' ' :: ':' :: trail)) :: [] := by
      rw [splitWsOnce_shape _ _ (by simp) (hprefixTok sender user hs hu)
        (by rw [hrest_eq]; simp)]
      rw [hrest_eq]
    have h2 : splitWsOnce (cmd ++ ' ' :: (mid ++ ' ' :: ':' :: trail)) =
        cmd :: dropWs (mid ++ ' ' :: ':' :: trail) :: [] := by
      apply splitWsOnce_shape cmd _ hc hcs
      intro hnil
      have hmem : (':' : Char) ∈ mid ++ ' ' :: ':' :: trail := by simp
      have h3 := List.dropWhile_eq_nil_iff.mp hnil _ hmem
      exact absurd h3 (by decide)
    have h4 : splitColonOnce (dropWs (mid ++ ' ' :: ':' :: trail)) =
        dropWs (mid ++ ' ' :: []) :: trail :: [] := by
      rw [dropWs_append_colon]
      apply splitColonOnce_split
      intro c hcmem
      have hsub : c ∈ mid ++ ' ' :: [] := (List.dropWhile_sublist _).subset hcmem
      rcases List.mem_append.mp hsub with h | h
      · have : c ≠ ':' := fun hcc => hm (hcc ▸ h)
        simpa using this
      · rcases List.mem_cons.mp h with h | h
        · rw [h]; rfl
        · simp at h
    simp only [ircLineFull, parseLine]
    simp only [if_true]
    rw [h1]
    dsimp only
    rw [if_neg (by simp)]
    rw [hsenderTW sender user hsb]
    rw [h2]
    dsimp only
    rw [h4]
    dsimp only
    rw [show pyStrip (dropWs (mid ++ ' ' :: [])) = pyStrip mid from by
      rw [pyStrip_dropWs, pyStrip_append_space]]
  · intro line r hne hhead hok
    cases line with
    | nil => exact absurd rfl hne
    | cons c cs =>
      have hc : ¬ c = ':' := fun h => hhead (by rw [h]; rfl)
      simp only [parseLine] at hok
      rw [if_neg hc] at hok
      dsimp only at hok
      split at hok
      · exact absurd hok (by simp)
      · injection hok with hok
        rw [← hok]
      · split at hok
        · injection hok with hok
          rw [← hok]
        · injection hok with hok
          rw [← hok]
        · injection hok with hok
          rw [← hok]
  · intro sender user cmd mid hs hsb hu hc hcs hm hmne
    have hrest_eq : dropWs (cmd ++ ' ' :: mid) = cmd ++ ' ' :: mid := by
      cases cmd with
      | nil => exact absurd rfl hc
      | cons c0 t0 =>
        rw [List.cons_append]
        exact dropWs_cons_of_nonspace c0 _ (hcs c0 (List.mem_cons_self c0 t0))
    have h1 : splitWsOnce ((sender ++ '!' :: user) ++ ' ' :: (cmd ++ ' ' :: mid)) =
        (sender ++ '!' :: user) :: (cmd ++ ' ' :: mid) :: [] := by
      rw [splitWsOnce_shape _ _ (by simp) (hprefixTok sender user hs hu)
        (by rw [hrest_eq]; simp)]
      rw [hrest_eq]
    have h2 : splitWsOnce (cmd ++ ' ' :: mid) = cmd :: dropWs mid :: [] :=
      splitWsOnce_shape cmd mid hc hcs hmne
    have h4 : splitColonOnce (dropWs mid) = dropWs mid :: [] := by
      apply splitColonOnce_no_colon
      intro c hcmem
      have hsub : c ∈ mid := (List.dropWhile_sublist _).subset hcmem
      have : c ≠ ':' := fun hcc => hm (hcc ▸ hsub)
      simpa using this
    simp only [ircLineNoTrail, parseLine]
    simp only [if_true]
    rw [h1]
    dsimp only
    rw [if_neg (by simp)]
    rw [hsenderTW sender user hsb]
    rw [h2]
    dsimp only
    rw [h4]
    dsimp only
    rw [pyStrip_dropWs]

theorem parse_line_spec_witness :
    parseLine (ircLineFull ("alice".toList) ("A".toList) ("privmsg".toList)
        ("#hello".toList) (" hi there ".toList)) =
      Except.ok (some ("alice".toList), pyUpper ("privmsg".toList),
        some (pyStrip ("#hello".toList)), some (pyStrip (" hi there ".toList))) ∧
    ((none : Option (List Char)), "PING".toList,
      (some ([] : List Char) : Option (List Char)),
      (some ("x".toList) : Option (List Char))).1 = none ∧
    parseLine (ircLineNoTrail ("bob".toList) ("B".toList) ("join".toList) ("#room".toList)) =
      Except.ok (some ("bob".toList), pyUpper ("join".toList),
        some (pyStrip ("#room".toList)), none) :=
  ⟨parse_line_spec.1 ("alice".toList) ("A".toList) ("privmsg".toList)
      ("#hello".toList) (" hi there ".toList)
      (by decide) (by decide) (by decide) (by decide) (by decide) (by decide),
   parse_line_spec.2.1 ("PING :x".toList)
      (none, "PING".toList, some [], some ("x".toList))
      (by decide) (by decide) (by decide),
   parse_line_spec.2.2 ("bob".toList) ("B".toList) ("join".toList) ("#room".toList)
      (by decide) (by decide) (by decide) (by decide) (by decide) (by decide) (by decide)⟩

/-! ## C1, C7, C8: monitor loop -/

theorem monitorStep_privmsg (st : IRCState) (line x mid trail : List Char)
    (hparse : parseLine line = Except.ok (some x, "PRIVMSG".toList, some mid, some trail)) :
    monitorStep st line =
      match findChannelConfig st.channels mid with
      | none => Except.error StepErr.valueError
      | some ch =>
        Except.ok ({ st with recoveryDelay := 1 },
          (⟨ch.toLabels, '<' :: (optText (some x) ++ ch.sep ++ "> ".toList), trail⟩ :
            CallbackCall) :: [], []) := by
  simp only [monitorStep, hparse]
  unfold dispatchCommand
  rw [if_neg (by decide), if_neg (by decide), if_pos rfl]

theorem monitorStep_join (st : IRCState) (line x mid : List Char)
    (trailing : Option (List Char))
    (hparse : parseLine line = Except.ok (some x, "JOIN".toList, some mid, trailing)) :
    monitorStep st line =
      match findChannelConfig st.channels mid with
      | none => Except.error StepErr.valueError
      | some ch =>
        match lookupNicks st.channelNicks ch.channel with
        | none => Except.error StepErr.keyError
        | some s =>
          Except.ok
            ({ st with
                channelNicks := setNicks st.channelNicks ch.channel (setAdd s x)
                recoveryDelay := 1 },
             (⟨ch.toLabels, [],
               x ++ ch.sep ++ " has joined ".toList ++ ch.channel
                 ++ " (".toList ++ st.host ++ ")".toList⟩ : CallbackCall) :: [], []) := by
  simp only [monitorStep, hparse]
  unfold dispatchCommand
  rw [if_neg (by decide), if_neg (by decide), if_neg (by decide), if_pos rfl]

theorem monitorStep_part (st : IRCState) (line x mid : List Char)
    (trailing : Option (List Char))
    (hparse : parseLine line = Except.ok (some x, "PART".toList, some mid, trailing)) :
    monitorStep st line =
      match findChannelConfig st.channels mid with
      | none => Except.error StepErr.valueError
      | some ch =>
        match lookupNicks st.channelNicks ch.channel with
        | none => Except.error StepErr.keyError
        | some s =>
          Except.ok
            ({ st with
                channelNicks := setNicks st.channelNicks ch.channel (setDiscard s x)
                recoveryDelay := 1 },
             (⟨ch.toLabels, [],
               x ++ ch.sep ++ " has left ".toList ++ ch.channel
                 ++ " (".toList ++ st.host ++ ")".toList ++ reasonText trailing⟩ :
               CallbackCall) :: [], []) := by
  simp only [monitorStep, hparse]
  unfold dispatchCommand
  rw [if_neg (by decide), if_neg (by decide), if_neg (by decide), if_neg (by decide),
      if_pos rfl]

theorem monitorStep_nick (st : IRCState) (line x y : List Char) (mo : Option (List Char))
    (hparse : parseLine line = Except.ok (some x, "NICK".toList, mo, some y)) :
    monitorStep st line =
      match (findChannelsContainingNick st.channelNicks x).foldlM
          (nickStep y x (x ++ " is now known as ".toList ++ y ++ " on ".toList ++ st.host))
          (st, []) with
      | Except.error e => Except.error e
      | Except.ok (st2, calls) =>
        Except.ok ({ st2 with recoveryDelay := 1 }, calls, []) := by
  simp only [monitorStep, hparse]
  unfold dispatchCommand
  rw [if_neg (by decide), if_neg (by decide), if_neg (by decide), if_neg (by decide),
      if_neg (by decide), if_pos rfl]

/-- C1 counterexample: with a single binding for "#a", an inbound
`PRIVMSG` targeting the unbound channel "#b" makes the monitor iteration
fail with the `ValueError` raised by `_find_channel_config` — the line is
not logged-and-skipped and the monitoring loop does not go on to the next
line; instead the exception aborts the lifecycle iteration. -/
theorem unbound_channel_counterexample :
    monitorStep
      ⟨(⟨"#a".toList, [], "x".toList, ("y".toList :: [])⟩ : Binding) :: [],
        ("#a".toList, ([] : List (List Char))) :: [], 1, "irc.example.com".toList⟩
      (":alice!A PRIVMSG #b :hi".toList) = Except.error StepErr.valueError := by
  decide

/-- C1 (amended): a PRIVMSG, JOIN or PART line whose target channel has no
binding raises `ValueError` in `_find_channel_config`, aborting the
monitoring loop's lifecycle iteration (the loop does not skip the line and
continue); the reconnect supervisor then treats it like any other failed
iteration, so the adapter keeps running with backoff. -/
theorem unbound_channel_aborts_iteration :
    (∀ (st : IRCState) (line x mid trail : List Char),
        parseLine line = Except.ok (some x, "PRIVMSG".toList, some mid, some trail) →
        findChannelConfig st.channels mid = none →
        monitorStep st line = Except.error StepErr.valueError) ∧
    (∀ (st : IRCState) (line x mid : List Char) (trailing : Option (List Char)),
        parseLine line = Except.ok (some x, "JOIN".toList, some mid, trailing) →
        findChannelConfig st.channels mid = none →
        monitorStep st line = Except.error StepErr.valueError) ∧
    (∀ (st : IRCState) (line x mid : List Char) (trailing : Option (List Char)),
        parseLine line = Except.ok (some x, "PART".toList, some mid, trailing) →
        findChannelConfig st.channels mid = none →
        monitorStep st line = Except.error StepErr.valueError) ∧
    (∀ cap d : Nat, stepDelay cap d RunEv.fail = min (d * 2) cap) := by
  refine ⟨?_, ?_, ?_, fun cap d => rfl⟩
  · intro st line x mid trail hparse hfind
    rw [monitorStep_privmsg st line x mid trail hparse, hfind]
  · intro st line x mid trailing hparse hfind
    rw [monitorStep_join st line x mid trailing hparse, hfind]
  · intro st line x mid trailing hparse hfind
    rw [monitorStep_part st line x mid trailing hparse, hfind]

theorem unbound_channel_aborts_iteration_witness :
    monitorStep
      ⟨(⟨"#chan".toList, [], "x".toList, ("y".toList :: [])⟩ : Binding) :: [],
        ("#chan".toList, ([] : List (List Char))) :: [], 1, "irc.example.com".toList⟩
      (":bob!B JOIN #nowhere".toList) = Except.error StepErr.valueError :=
  unbound_channel_aborts_iteration.2.1
    ⟨(⟨"#chan".toList, [], "x".toList, ("y".toList :: [])⟩ : Binding) :: [],
      ("#chan".toList, ([] : List (List Char))) :: [], 1, "irc.example.com".toList⟩
    (":bob!B JOIN #nowhere".toList) ("bob".toList) ("#nowhere".toList) none
    (by decide) (by decide)

theorem mem_setAdd_self (s : List (List Char)) (z : List Char) : z ∈ setAdd s z := by
  unfold setAdd
  split
  · assumption
  · simp

theorem mem_setAdd_iff (s : List (List Char)) (z w : List Char) :
    w ∈ setAdd s z ↔ (w ∈ s ∨ w = z) := by
  unfold setAdd
  split
  · rename_i h
    constructor
    · exact Or.inl
    · intro hw
      rcases hw with hw | hw
      · exact hw
      · rw [hw]
        exact h
  · simp [List.mem_append]

theorem not_mem_setDiscard_self (s : List (List Char)) (z : List Char) :
    z ∉ setDiscard s z := by
  unfold setDiscard
  intro h
  have h2 := (List.mem_filter.mp h).2
  simp at h2

theorem lookupNicks_cons_pos (k : List Char) (r : List (List Char))
    (rest : List (List Char × List (List Char))) :
    lookupNicks ((k, r) :: rest) k = some r := by
  unfold lookupNicks
  rw [List.find?_cons_of_pos _ (by simp)]
  rfl

theorem lookupNicks_cons_neg (k k2 : List Char) (r : List (List Char))
    (rest : List (List Char × List (List Char))) (h : k2 ≠ k) :
    lookupNicks ((k2, r) :: rest) k = lookupNicks rest k := by
  unfold lookupNicks
  rw [List.find?_cons_of_neg _ (by simpa using h)]

/-- C7: processing `:X!u NICK :Y` in a state where X is a member of exactly
the rosters of channels C1 and C2 (and not C3) moves X to Y in both
rosters, leaves C3's roster untouched, resets the recovery delay, and
emits exactly one notice to C1's destinations and one to C2's — none to
C3's. -/
theorem nick_rename_spec
    (line x y : List Char) (mo : Option (List Char))
    (channels : List Binding) (b1 b2 : Binding)
    (n1 n2 n3 : List Char) (r1 r2 r3 : List (List Char))
    (delay : Nat) (host : List Char)
    (hparse : parseLine line = Except.ok (some x, "NICK".toList, mo, some y))
    (hxy : x ≠ y)
    (h1 : x ∈ r1) (h2 : x ∈ r2) (h3 : x ∉ r3)
    (hn12 : n1 ≠ n2) (hn13 : n1 ≠ n3) (hn23 : n2 ≠ n3)
    (hf1 : findChannelConfig channels n1 = some b1)
    (hf2 : findChannelConfig channels n2 = some b2) :
    monitorStep ⟨channels, (n1, r1) :: (n2, r2) :: (n3, r3) :: [], delay, host⟩ line =
      Except.ok
        (⟨channels,
          (n1, setAdd (setDiscard r1 x) y) :: (n2, setAdd (setDiscard r2 x) y) ::
            (n3, r3) :: [],
          1, host⟩,
         (⟨b1.toLabels, [], x ++ " is now known as ".toList ++ y ++ " on ".toList ++ host⟩ :
           CallbackCall) ::
         (⟨b2.toLabels, [], x ++ " is now known as ".toList ++ y ++ " on ".toList ++ host⟩ :
           CallbackCall) :: [], []) ∧
    (y ∈ setAdd (setDiscard r1 x) y ∧ x ∉ setAdd (setDiscard r1 x) y) ∧
    (y ∈ setAdd (setDiscard r2 x) y ∧ x ∉ setAdd (setDiscard r2 x) y) := by
  have hnotmem : ∀ r : List (List Char), x ∉ setAdd (setDiscard r x) y := by
    intro r hmem
    rcases (mem_setAdd_iff _ _ _).mp hmem with hmem | hmem
    · exact not_mem_setDiscard_self r x hmem
    · exact hxy hmem
  refine ⟨?_, ⟨mem_setAdd_self _ _, hnotmem r1⟩, ⟨mem_setAdd_self _ _, hnotmem r2⟩⟩
  rw [monitorStep_nick _ line x y mo hparse]
  have hfindc : findChannelsContainingNick ((n1, r1) :: (n2, r2) :: (n3, r3) :: []) x =
      n1 :: n2 :: [] := by
    unfold findChannelsContainingNick
    simp only [List.filter_cons]
    rw [if_pos (by simpa using h1), if_pos (by simpa using h2), if_neg (by simpa using h3)]
    rfl
  dsimp only
  rw [hfindc]
  have hlook1 : lookupNicks ((n1, r1) :: (n2, r2) :: (n3, r3) :: []) n1 = some r1 :=
    lookupNicks_cons_pos n1 r1 _
  have hlook2 : lookupNicks
      ((n1, setAdd (setDiscard r1 x) y) :: (n2, r2) :: (n3, r3) :: []) n2 = some r2 := by
    rw [lookupNicks_cons_neg _ _ _ _ hn12]
    exact lookupNicks_cons_pos n2 r2 _
  have hset1 : setNicks ((n1, r1) :: (n2, r2) :: (n3, r3) :: []) n1
      (setAdd (setDiscard r1 x) y) =
      (n1, setAdd (setDiscard r1 x) y) :: (n2, r2) :: (n3, r3) :: [] := by
    unfold setNicks
    simp only [List.map_cons, List.map_nil, if_true]
    rw [if_neg (fun h => hn12 h.symm), if_neg (fun h => hn13 h.symm)]
  have hset2 : setNicks
      ((n1, setAdd (setDiscard r1 x) y) :: (n2, r2) :: (n3, r3) :: []) n2
      (setAdd (setDiscard r2 x) y) =
      (n1, setAdd (setDiscard r1 x) y) :: (n2, setAdd (setDiscard r2 x) y) ::
        (n3, r3) :: [] := by
    unfold setNicks
    simp only [List.map_cons, List.map_nil, if_true]
    rw [if_neg (fun h => hn12 h), if_neg (fun h => hn23 h.symm)]
  have hstep1 : nickStep y x
      (x ++ " is now known as ".toList ++ y ++ " on ".toList ++ host)
      (⟨channels, (n1, r1) :: (n2, r2) :: (n3, r3) :: [], delay, host⟩, []) n1 =
      Except.ok
        (⟨channels, (n1, setAdd (setDiscard r1 x) y) :: (n2, r2) :: (n3, r3) :: [],
          delay, host⟩,
         (⟨b1.toLabels, [],
           x ++ " is now known as ".toList ++ y ++ " on ".toList ++ host⟩ :
           CallbackCall) :: []) := by
    unfold nickStep
    rw [hf1]
    dsimp only
    rw [hlook1]
    dsimp only
    rw [hset1]
    rfl
  have hstep2 : nickStep y x
      (x ++ " is now known as ".toList ++ y ++ " on ".toList ++ host)
      (⟨channels, (n1, setAdd (setDiscard r1 x) y) :: (n2, r2) :: (n3, r3) :: [],
        delay, host⟩,
       (⟨b1.toLabels, [],
         x ++ " is now known as ".toList ++ y ++ " on ".toList ++ host⟩ :
         CallbackCall) :: []) n2 =
      Except.ok
        (⟨channels,
          (n1, setAdd (setDiscard r1 x) y) :: (n2, setAdd (setDiscard r2 x) y) ::
            (n3, r3) :: [],
          delay, host⟩,
         (⟨b1.toLabels, [],
           x ++ " is now known as ".toList ++ y ++ " on ".toList ++ host⟩ :
           CallbackCall) ::
         (⟨b2.toLabels, [],
           x ++ " is now known as ".toList ++ y ++ " on ".toList ++ host⟩ :
           CallbackCall) :: []) := by
    unfold nickStep
    rw [hf2]
    dsimp only
    rw [hlook2]
    dsimp only
    rw [hset2]
    rfl
  have hfold : List.foldlM
      (nickStep y x (x ++ " is now known as ".toList ++ y ++ " on ".toList ++ host))
      ((⟨channels, (n1, r1) :: (n2, r2) :: (n3, r3) :: [], delay, host⟩ : IRCState),
        ([] : List CallbackCall))
      (n1 :: n2 :: []) =
      Except.ok
        (⟨channels,
          (n1, setAdd (setDiscard r1 x) y) :: (n2, setAdd (setDiscard r2 x) y) ::
            (n3, r3) :: [],
          delay, host⟩,
         (⟨b1.toLabels, [],
           x ++ " is now known as ".toList ++ y ++ " on ".toList ++ host⟩ :
           CallbackCall) ::
         (⟨b2.toLabels, [],
           x ++ " is now known as ".toList ++ y ++ " on ".toList ++ host⟩ :
           CallbackCall) :: []) := by
    rw [List.foldlM_cons, hstep1]
    show List.foldlM
      (nickStep y x (x ++ " is now known as ".toList ++ y ++ " on ".toList ++ host))
      ((⟨channels, (n1, setAdd (setDiscard r1 x) y) :: (n2, r2) :: (n3, r3) :: [],
          delay, host⟩ : IRCState),
        (⟨b1.toLabels, [],
          x ++ " is now known as ".toList ++ y ++ " on ".toList ++ host⟩ :
          CallbackCall) :: [])
      (n2 :: []) = _
    rw [List.foldlM_cons, hstep2]
    show List.foldlM
      (nickStep y x (x ++ " is now known as ".toList ++ y ++ " on ".toList ++ host))
      ((⟨channels,
          (n1, setAdd (setDiscard r1 x) y) :: (n2, setAdd (setDiscard r2 x) y) ::
            (n3, r3) :: [],
          delay, host⟩ : IRCState),
        (⟨b1.toLabels, [],
          x ++ " is now known as ".toList ++ y ++ " on ".toList ++ host⟩ :
          CallbackCall) ::
        (⟨b2.toLabels, [],
          x ++ " is now known as ".toList ++ y ++ " on ".toList ++ host⟩ :
          CallbackCall) :: [])
      ([] : List (List Char)) = _
    rw [List.foldlM_nil]
    rfl
  rw [hfold]

/-- Concrete binding for channel "#c1" used in witnesses. -/
def wb1 : Binding := ⟨"#c1".toList, [], "l1".toList, ("d1".toList :: [])⟩

/-- Concrete binding for channel "#c2" used in witnesses. -/
def wb2 : Binding := ⟨"#c2".toList, [], "l2".toList, ("d2".toList :: [])⟩

/-- Concrete binding for channel "#c3" used in witnesses. -/
def wb3 : Binding := ⟨"#c3".toList, [], "l3".toList, ("d3".toList :: [])⟩

theorem nick_rename_spec_witness :
    monitorStep
      ⟨wb1 :: wb2 :: wb3 :: [],
        ("#c1".toList, ("x".toList :: [])) ::
        ("#c2".toList, ("x".toList :: "z".toList :: [])) ::
        ("#c3".toList, ("w".toList :: [])) :: [],
        7, "h".toList⟩
      (":x!u NICK :y".toList) =
      Except.ok
        (⟨wb1 :: wb2 :: wb3 :: [],
          ("#c1".toList, setAdd (setDiscard ("x".toList :: []) ("x".toList)) ("y".toList)) ::
          ("#c2".toList,
            setAdd (setDiscard ("x".toList :: "z".toList :: []) ("x".toList)) ("y".toList)) ::
          ("#c3".toList, ("w".toList :: [])) :: [],
          1, "h".toList⟩,
         (⟨wb1.toLabels, [],
           "x".toList ++ " is now known as ".toList ++ "y".toList ++ " on ".toList
             ++ "h".toList⟩ : CallbackCall) ::
         (⟨wb2.toLabels, [],
           "x".toList ++ " is now known as ".toList ++ "y".toList ++ " on ".toList
             ++ "h".toList⟩ : CallbackCall) :: [], []) ∧
    ("y".toList ∈ setAdd (setDiscard ("x".toList :: []) ("x".toList)) ("y".toList) ∧
      "x".toList ∉ setAdd (setDiscard ("x".toList :: []) ("x".toList)) ("y".toList)) ∧
    ("y".toList ∈
        setAdd (setDiscard ("x".toList :: "z".toList :: []) ("x".toList)) ("y".toList) ∧
      "x".toList ∉
        setAdd (setDiscard ("x".toList :: "z".toList :: []) ("x".toList)) ("y".toList)) :=
  nick_rename_spec (":x!u NICK :y".toList) ("x".toList) ("y".toList) (some [])
    (wb1 :: wb2 :: wb3 :: []) wb1 wb2
    ("#c1".toList) ("#c2".toList) ("#c3".toList)
    ("x".toList :: []) ("x".toList :: "z".toList :: []) ("w".toList :: [])
    7 ("h".toList)
    (by decide) (by decide) (by decide) (by decide) (by decide)
    (by decide) (by decide) (by decide) (by decide) (by decide)

/-- Folding the monitor over successive inbound lines, tracking the client
state (the `for line in self._recv()` loop of src/nimb.py line 123). -/
def monitorSteps (st : IRCState) : List (List Char) → Except StepErr IRCState
  | [] => Except.ok st
  | l :: ls =>
    match monitorStep st l with
    | Except.error e => Except.error e
    | Except.ok out => monitorSteps out.1 ls

theorem setAdd_nodup (s : List (List Char)) (x : List Char) (h : s.Nodup) :
    (setAdd s x).Nodup := by
  unfold setAdd
  split
  · exact h
  · rename_i hx
    rw [List.nodup_append]
    refine ⟨h, List.nodup_singleton x, ?_⟩
    intro a ha hb
    rw [List.mem_singleton] at hb
    rw [hb] at ha
    exact hx ha

theorem setDiscard_nodup (s : List (List Char)) (x : List Char) (h : s.Nodup) :
    (setDiscard s x).Nodup :=
  List.Nodup.filter _ h

theorem foldl_setAdd_nodup (nicks : List (List Char)) :
    ∀ s : List (List Char), s.Nodup → (nicks.foldl setAdd s).Nodup := by
  induction nicks with
  | nil => intro s h; exact h
  | cons n rest ih =>
    intro s h
    rw [List.foldl_cons]
    exact ih _ (setAdd_nodup s n h)

theorem setNicks_nodup (m : List (List Char × List (List Char))) (k : List Char)
    (v : List (List Char)) (hm : ∀ q ∈ m, q.2.Nodup) (hv : v.Nodup) :
    ∀ q ∈ setNicks m k v, q.2.Nodup := by
  intro q hq
  unfold setNicks at hq
  rcases List.mem_map.mp hq with ⟨a, ha, hfa⟩
  by_cases h : a.1 = k
  · rw [← hfa, if_pos h]
    exact hv
  · rw [← hfa, if_neg h]
    exact hm a ha

theorem lookupNicks_nodup (m : List (List Char × List (List Char))) (k : List Char)
    (s : List (List Char)) (hm : ∀ q ∈ m, q.2.Nodup) (h : lookupNicks m k = some s) :
    s.Nodup := by
  unfold lookupNicks at h
  cases hf : m.find? (fun q => q.1 = k) with
  | none =>
    rw [hf] at h
    simp at h
  | some q =>
    rw [hf] at h
    simp at h
    rw [← h]
    exact hm q (List.mem_of_find?_eq_some hf)

theorem foldlM_except_inv {α β ε : Type} (P : α → Prop) (f : α → β → Except ε α)
    (hstep : ∀ (a : α) (b : β) (r : α), P a → f a b = Except.ok r → P r) :
    ∀ (l : List β) (a r : α), P a → l.foldlM f a = Except.ok r → P r := by
  intro l
  induction l with
  | nil =>
    intro a r hP h
    rw [List.foldlM_nil] at h
    injection h with h
    rw [← h]
    exact hP
  | cons b bs ih =>
    intro a r hP h
    rw [List.foldlM_cons] at h
    cases hfa : f a b with
    | error e =>
      rw [hfa] at h
      exact absurd h (by simp [Bind.bind, Except.bind])
    | ok a2 =>
      rw [hfa] at h
      exact ih a2 r (hstep a b a2 hP hfa) h

theorem nickStep_nodup (y x msg : List Char) (acc : IRCState × List CallbackCall)
    (cn : List Char) (r : IRCState × List CallbackCall)
    (hP : ∀ q ∈ acc.1.channelNicks, q.2.Nodup)
    (h : nickStep y x msg acc cn = Except.ok r) :
    ∀ q ∈ r.1.channelNicks, q.2.Nodup := by
  unfold nickStep at h
  split at h
  · exact absurd h (by simp)
  · split at h
    · exact absurd h (by simp)
    · rename_i s hlook
      injection h with h
      rw [← h]
      exact setNicks_nodup _ _ _ hP
        (setAdd_nodup _ _ (setDiscard_nodup _ _ (lookupNicks_nodup _ _ _ hP hlook)))

theorem quitStep_nodup (x msg : List Char) (acc : IRCState × List CallbackCall)
    (cn : List Char) (r : IRCState × List CallbackCall)
    (hP : ∀ q ∈ acc.1.channelNicks, q.2.Nodup)
    (h : quitStep x msg acc cn = Except.ok r) :
    ∀ q ∈ r.1.channelNicks, q.2.Nodup := by
  unfold quitStep at h
  split at h
  · exact absurd h (by simp)
  · split at h
    · exact absurd h (by simp)
    · rename_i s hlook
      injection h with h
      rw [← h]
      exact setNicks_nodup _ _ _ hP
        (setDiscard_nodup _ _ (lookupNicks_nodup _ _ _ hP hlook))

theorem monitorStep_preserves_nodup (st : IRCState) (line : List Char)
    (out : IRCState × List CallbackCall × List (List Char))
    (hP : ∀ q ∈ st.channelNicks, q.2.Nodup)
    (h : monitorStep st line = Except.ok out) :
    ∀ q ∈ out.1.channelNicks, q.2.Nodup := by
  unfold monitorStep at h
  split at h
  · exact absurd h (by simp)
  · unfold dispatchCommand at h
    split_ifs at h
    · injection h with h
      rw [← h]
      exact hP
    · split at h
      · split at h
        · exact absurd h (by simp)
        · split at h
          · exact absurd h (by simp)
          · split at h
            · exact absurd h (by simp)
            · split at h
              · injection h with h
                rw [← h]
                exact hP
              · split at h
                · exact absurd h (by simp)
                · rename_i s hlook
                  injection h with h
                  rw [← h]
                  exact setNicks_nodup _ _ _ hP
                    (foldl_setAdd_nodup _ _ (lookupNicks_nodup _ _ _ hP hlook))
      · injection h with h
        rw [← h]
        exact hP
    · split at h
      · split at h
        · exact absurd h (by simp)
        · injection h with h
          rw [← h]
          exact hP
      · injection h with h
        rw [← h]
        exact hP
    · split at h
      · split at h
        · exact absurd h (by simp)
        · split at h
          · exact absurd h (by simp)
          · rename_i s hlook
            injection h with h
            rw [← h]
            exact setNicks_nodup _ _ _ hP
              (setAdd_nodup _ _ (lookupNicks_nodup _ _ _ hP hlook))
      · injection h with h
        rw [← h]
        exact hP
    · split at h
      · split at h
        · exact absurd h (by simp)
        · split at h
          · exact absurd h (by simp)
          · rename_i s hlook
            injection h with h
            rw [← h]
            exact setNicks_nodup _ _ _ hP
              (setDiscard_nodup _ _ (lookupNicks_nodup _ _ _ hP hlook))
      · injection h with h
        rw [← h]
        exact hP
    · split at h
      · split at h
        · exact absurd h (by simp)
        · rename_i st2calls hfold
          injection h with h
          rw [← h]
          exact foldlM_except_inv _ _ (fun a b r => nickStep_nodup _ _ _ a b r) _ _ _ hP hfold
      · injection h with h
        rw [← h]
        exact hP
    · split at h
      · split at h
        · exact absurd h (by simp)
        · rename_i st2calls hfold
          injection h with h
          rw [← h]
          exact foldlM_except_inv _ _ (fun a b r => quitStep_nodup _ _ a b r) _ _ _ hP hfold
      · injection h with h
        rw [← h]
        exact hP
    · injection h with h
      rw [← h]
      exact hP

/-- C8: starting from an empty roster for a bound channel, processing
join(A), join(B), part(A) leaves the roster containing exactly {B}; and no
roster ever contains duplicate identifiers — every successful monitor step
preserves roster set-semantics. -/
theorem membership_join_part_spec :
    (∀ (b : Binding) (a bn host : List Char) (delay : Nat)
        (lineJA lineJB linePA mA mB mP : List Char)
        (tA tB tP : Option (List Char)),
        parseLine lineJA = Except.ok (some a, "JOIN".toList, some mA, tA) →
        parseLine lineJB = Except.ok (some bn, "JOIN".toList, some mB, tB) →
        parseLine linePA = Except.ok (some a, "PART".toList, some mP, tP) →
        findChannelConfig (b :: []) mA = some b →
        findChannelConfig (b :: []) mB = some b →
        findChannelConfig (b :: []) mP = some b →
        a ≠ bn →
        monitorSteps ⟨b :: [], (b.channel, []) :: [], delay, host⟩
            (lineJA :: lineJB :: linePA :: []) =
          Except.ok ⟨b :: [], (b.channel, bn :: []) :: [], 1, host⟩) ∧
    (∀ (st : IRCState) (line : List Char)
        (out : IRCState × List CallbackCall × List (List Char)),
        (∀ q ∈ st.channelNicks, q.2.Nodup) →
        monitorStep st line = Except.ok out →
        ∀ q ∈ out.1.channelNicks, q.2.Nodup) := by
  refine ⟨?_, monitorStep_preserves_nodup⟩
  intro b a bn host delay lineJA lineJB linePA mA mB mP tA tB tP hpA hpB hpP hfA hfB hfP hab
  have hsetA : setNicks ((b.channel, ([] : List (List Char))) :: []) b.channel
      (setAdd [] a) = (b.channel, a :: []) :: [] := by
    simp [setNicks, setAdd]
  have hsetB : setNicks ((b.channel, a :: []) :: []) b.channel
      (setAdd (a :: []) bn) = (b.channel, a :: bn :: []) :: [] := by
    have h1 : setAdd (a :: []) bn = a :: bn :: [] := by
      unfold setAdd
      rw [if_neg (fun hmem => hab (List.mem_singleton.mp hmem).symm)]
      rfl
    simp [setNicks, h1]
  have hsetP : setNicks ((b.channel, a :: bn :: []) :: []) b.channel
      (setDiscard (a :: bn :: []) a) = (b.channel, bn :: []) :: [] := by
    have h1 : setDiscard (a :: bn :: []) a = bn :: [] := by
      unfold setDiscard
      rw [List.filter_cons, if_neg (by simp), List.filter_cons,
        if_pos (by simp only [ne_eq, decide_eq_true_eq]; exact fun h => hab h.symm)]
      rfl
    simp [setNicks, h1]
  simp only [monitorSteps]
  rw [monitorStep_join _ _ _ _ _ hpA, hfA]
  dsimp only
  rw [lookupNicks_cons_pos]
  dsimp only
  rw [hsetA]
  rw [monitorStep_join _ _ _ _ _ hpB, hfB]
  dsimp only
  rw [lookupNicks_cons_pos]
  dsimp only
  rw [hsetB]
  rw [monitorStep_part _ _ _ _ _ hpP, hfP]
  dsimp only
  rw [lookupNicks_cons_pos]
  dsimp only
  rw [hsetP]

theorem membership_join_part_spec_witness :
    monitorSteps ⟨wb1 :: [], ("#c1".toList, []) :: [], 5, "h".toList⟩
        ((":a!u JOIN #c1".toList) :: (":b!u JOIN #c1".toList) ::
          (":a!u PART #c1".toList) :: []) =
      Except.ok ⟨wb1 :: [], ("#c1".toList, "b".toList :: []) :: [], 1, "h".toList⟩ ∧
    (∀ q ∈ (⟨wb1 :: [], ("#c1".toList, "a".toList :: []) :: [], 1, "h".toList⟩ :
        IRCState).channelNicks, q.2.Nodup) :=
  ⟨membership_join_part_spec.1 wb1 ("a".toList) ("b".toList) ("h".toList) 5
      (":a!u JOIN #c1".toList) (":b!u JOIN #c1".toList) (":a!u PART #c1".toList)
      ("#c1".toList) ("#c1".toList) ("#c1".toList) none none none
      (by decide) (by decide) (by decide) (by decide) (by decide) (by decide) (by decide),
   membership_join_part_spec.2 ⟨wb1 :: [], ("#c1".toList, []) :: [], 5, "h".toList⟩
      (":a!u JOIN #c1".toList)
      (⟨wb1 :: [], ("#c1".toList, "a".toList :: []) :: [], 1, "h".toList⟩,
        (⟨"d1".toList :: [], [], "a has joined #c1 (h)".toList⟩ : CallbackCall) :: [], [])
      (by decide) (by decide)⟩
